import Mathlib

/-!
Verification of the overlay-to-filter-graph compiler and job execution
engine of the video-editor backend (src/backend/main.py), as a shallow
embedding: the string-building loop of render_video_task, the command
builder, the upload endpoint's store insertion, and the cleanup step.
External effects (the ffmpeg process, JSON parsing, exceptions raised
inside the worker) are modelled as explicit parameters or outcomes.
-/

/-- Constant STORAGE_DIR = "rendered_videos" from the source. -/
def STORAGE_DIR : String := "rendered_videos"

/-- Model of Python os.path.join for a relative second component:
concatenation with a slash separator. -/
def pathJoin (a b : String) : String := a ++ "/" ++ b

/-- Path of the fixed image asset: os.path.join(os.getcwd(), 'assets', 'logo.png').
The working directory is a parameter cwd. -/
def logoPath (cwd : String) : String := cwd ++ "/assets/logo.png"

/-- Path of the font file: os.path.join(os.getcwd(), 'assets', 'Arial.ttf'). -/
def fontPath (cwd : String) : String := cwd ++ "/assets/Arial.ttf"

/-- One parsed overlay dictionary from the JSON metadata. The JSON key
"type" is the field otype (type is reserved in Lean). Timing fields are
modelled as Nat (the source reads them with mandatory dictionary access;
a submission missing them makes the worker raise, covered by the
internalError outcome of the execution model). x_pos and y_pos are read
with overlay.get(key, 50), hence Option with default 50. -/
structure OverlayJson where
  otype : String
  start_time : Nat
  end_time : Nat
  content : String := ""
  x_pos : Option Nat := none
  y_pos : Option Nat := none
deriving DecidableEq

/-- Model of Python str.replace("'", "\\'") on the character list of the
content: every single quote is replaced by backslash-quote, all other
characters are kept. -/
def escapeQuote : List Char → List Char
  | [] => []
  | c :: rest => if c = '\'' then '\\' :: '\'' :: escapeQuote rest else c :: escapeQuote rest

/-- text_content = overlay['content'].replace("'", "\\'") from the source. -/
def escapeText (s : String) : String := String.mk (escapeQuote s.data)

/-- Stream label f"[v{filter_count}]" from the source. -/
def mkLabel (n : Nat) : String := "[v" ++ toString n ++ "]"

/-- Stream label f"[img_scaled{filter_count}]" from the source. -/
def scaleLabel (n : Nat) : String := "[img_scaled" ++ toString n ++ "]"

/-- The drawtext filter string built for a text overlay in the source. -/
def textFilter (cwd : String) (ov : OverlayJson) : String :=
  "drawtext=text='" ++ escapeText ov.content ++ "':fontfile='" ++ fontPath cwd ++
    "':fontcolor=yellow:fontsize=48:x=" ++ toString (ov.x_pos.getD 50) ++
    ":y=" ++ toString (ov.y_pos.getD 50) ++
    ":enable='between(t," ++ toString ov.start_time ++ "," ++ toString ov.end_time ++ ")'"

/-- The overlay filter string built for an image overlay in the source. -/
def overlayFilter (ov : OverlayJson) : String :=
  "overlay=x=W-w-20:y=20:enable='between(t," ++ toString ov.start_time ++ "," ++
    toString ov.end_time ++ ")'"

/-- scale_filter = f"[{asset_input_index}:v] scale=150:-1 {scale_stream}". -/
def scaleFilter (aux fc : Nat) : String :=
  "[" ++ toString aux ++ ":v] scale=150:-1 " ++ scaleLabel fc

/-- The single element appended to filter_complex_list for an image overlay
whose asset is present: scale sub-stage, then the compositing stage. -/
def imageStage (aux fc : Nat) (cur : String) (ov : OverlayJson) : String :=
  scaleFilter aux fc ++ "; " ++ cur ++ scaleLabel fc ++ overlayFilter ov ++ mkLabel fc

/-- The loop state of render_video_task's overlay loop: the variables
input_files, filter_complex_list, current_stream, filter_count and
asset_input_index of the source. -/
structure CompState where
  input_files : List String
  filter_complex_list : List String
  current_stream : String
  filter_count : Nat
  asset_input_index : Nat
deriving DecidableEq

/-- The loop state before the first iteration. -/
def initState (video_path : String) : CompState :=
  { input_files := ["ffmpeg", "-y", "-i", video_path]
    filter_complex_list := []
    current_stream := "[0:v]"
    filter_count := 0
    asset_input_index := 1 }

/-- One iteration of the overlay loop of render_video_task. filter_count
is incremented first (also for skipped or unknown overlays, exactly as in
the source); a text overlay appends one drawtext stage; an image overlay
whose asset exists (fs is the set of existing files) registers the asset
as an auxiliary input and appends one scale-plus-overlay element; an image
overlay with a missing asset, or an overlay of unknown kind, changes
nothing else. -/
def compileStep (cwd : String) (fs : List String) (st : CompState) (ov : OverlayJson) :
    CompState :=
  let fc := st.filter_count + 1
  if ov.otype == "text" then
    { st with
      filter_complex_list :=
        st.filter_complex_list ++ [st.current_stream ++ textFilter cwd ov ++ mkLabel fc]
      current_stream := mkLabel fc
      filter_count := fc }
  else if ov.otype == "image" then
    if fs.contains (logoPath cwd) then
      { input_files := st.input_files ++ ["-i", logoPath cwd]
        filter_complex_list :=
          st.filter_complex_list ++ [imageStage st.asset_input_index fc st.current_stream ov]
        current_stream := mkLabel fc
        filter_count := fc
        asset_input_index := st.asset_input_index + 1 }
    else { st with filter_count := fc }
  else { st with filter_count := fc }

/-- The loop of render_video_task over the whole overlay list. -/
def compileState (cwd : String) (fs : List String) (video_path : String)
    (overlays : List OverlayJson) : CompState :=
  overlays.foldl (compileStep cwd fs) (initState video_path)

/-- output_path = os.path.join(STORAGE_DIR, f"\x7bjob_id\x7d_final.mp4"). -/
def output_path (job_id : String) : String := pathJoin STORAGE_DIR (job_id ++ "_final.mp4")

/-- Separator ", " used by the source to join filter_complex_list. -/
def commaSpace : String := ", "

/-- Separator "; " (the separator the specification describes). -/
def semiSpace : String := "; "

/-- The final command list built by render_video_task:
input_files plus the fixed encode arguments. -/
def buildCommand (cwd : String) (fs : List String) (video_path job_id : String)
    (overlays : List OverlayJson) : List String :=
  let st := compileState cwd fs video_path overlays
  st.input_files ++
    ["-filter_complex", String.intercalate commaSpace st.filter_complex_list,
     "-map", st.current_stream,
     "-map", "0:a?",
     "-c:v", "libx264",
     "-crf", "23",
     "-preset", "veryfast",
     "-c:a", "aac",
     "-b:a", "192k",
     output_path job_id]

/-- One job record of the in-memory job_status dictionary. -/
structure JobRecord where
  status : String
  video_path : String
  metadata : String
  result_path : Option String
deriving DecidableEq

/-- Outcome of the external encoder invocation (subprocess.run) or of the
worker body, from the point of view of the embedding: success (with or
without the process actually having produced the output file on storage),
a non-zero exit (subprocess.CalledProcessError), or any other internal
exception raised inside the try block. -/
inductive ProcOutcome where
  | success (createsOutput : Bool)
  | failure
  | internalError
deriving DecidableEq

/-- Model of the finally block: if os.path.exists(video_path):
os.remove(video_path). The filesystem is the list of existing paths. -/
def removeFile : List String → String → List String
  | [], _ => []
  | q :: rest, p => if q = p then removeFile rest p else q :: removeFile rest p

/-- Model of render_video_task: builds the command, then depending on the
outcome of subprocess.run sets the final record (COMPLETE with result_path,
or FAILED), and always runs the finally cleanup on the filesystem. Returns
(final job record, final filesystem, command). The transient PROCESSING
status and the log output are not observable in the final record. -/
def render_video_task (cwd : String) (job_id video_path : String)
    (overlays : List OverlayJson) (outcome : ProcOutcome) (job : JobRecord)
    (fs : List String) : JobRecord × List String × List String :=
  let command := buildCommand cwd fs video_path job_id overlays
  match outcome with
  | .success creates =>
      let fs1 := if creates then fs ++ [output_path job_id] else fs
      ({ job with status := "COMPLETE", result_path := some (output_path job_id) },
        removeFile fs1 video_path, command)
  | .failure =>
      ({ job with status := "FAILED" }, removeFile fs video_path, command)
  | .internalError =>
      ({ job with status := "FAILED" }, removeFile fs video_path, command)

/-- temp_video_path = os.path.join(STORAGE_DIR, f"\x7bjob_id\x7d_\x7bfilename\x7d"),
with the client-supplied filename used as-is. -/
def temp_video_path (job_id filename : String) : String :=
  pathJoin STORAGE_DIR (job_id ++ "_" ++ filename)

/-- Result of the upload endpoint: the updated job store (an association
list with the newest binding first, modelling dictionary update), the
updated filesystem, and the HTTP response (ok with the JSON body, or the
500 error raised when saving the file fails). -/
structure UploadResult where
  store : List (String × JobRecord)
  fs : List String
  response : Except String (String × String)

/-- Model of upload_video: saves the uploaded file at temp_video_path
(saveOk models whether writing raises), then unconditionally records a
PENDING job with the raw, unparsed metadata string and schedules the
task. No parsing or validation of metadata happens here. -/
def upload_video (job_id filename metadata : String)
    (store : List (String × JobRecord)) (fs : List String) (saveOk : Bool) :
    UploadResult :=
  let tvp := temp_video_path job_id filename
  if saveOk then
    { store := (job_id,
        { status := "PENDING", video_path := tvp, metadata := metadata,
          result_path := none }) :: store
      fs := fs ++ [tvp]
      response := .ok (job_id, "PENDING") }
  else
    { store := store, fs := fs, response := .error "Could not save file" }

/-- One stage of the structured view of the compiled filter graph: the
exact string the source appends to filter_complex_list, together with the
main input label it consumes, the output label and its numeric index, and
for image stages the auxiliary-input index its scale sub-stage reads. -/
structure Stage where
  text : String
  inLabel : String
  outLabel : String
  outIndex : Nat
  isImage : Bool
  auxIndex : Nat
deriving DecidableEq

/-- Structured form of the overlay loop: the same recursion as
compileStep folded over the list, recording each emitted stage with its
input and output labels. cur, fc and aux are the current stream, the
filter counter and the auxiliary-input counter. -/
def compileStages (cwd : String) (fs : List String) :
    String → Nat → Nat → List OverlayJson → List Stage
  | _, _, _, [] => []
  | cur, fc, aux, ov :: rest =>
    if ov.otype == "text" then
      { text := cur ++ textFilter cwd ov ++ mkLabel (fc + 1), inLabel := cur,
        outLabel := mkLabel (fc + 1), outIndex := fc + 1, isImage := false,
        auxIndex := 0 } ::
        compileStages cwd fs (mkLabel (fc + 1)) (fc + 1) aux rest
    else if ov.otype == "image" then
      if fs.contains (logoPath cwd) then
        { text := imageStage aux (fc + 1) cur ov, inLabel := cur,
          outLabel := mkLabel (fc + 1), outIndex := fc + 1, isImage := true,
          auxIndex := aux } ::
          compileStages cwd fs (mkLabel (fc + 1)) (fc + 1) (aux + 1) rest
      else compileStages cwd fs cur (fc + 1) aux rest
    else compileStages cwd fs cur (fc + 1) aux rest

/-- Output label of the last stage of a list, or the default when the
list is empty. -/
def lastLabel (d : String) : List Stage → String
  | [] => d
  | s :: rest => lastLabel s.outLabel rest

/-- The "-i path" argument pairs contributed by the image stages, in
registration order. -/
def auxInputs (cwd : String) : List Stage → List String
  | [] => []
  | s :: rest => (if s.isImage then ["-i", logoPath cwd] else []) ++ auxInputs cwd rest

/-- Chain predicate: each stage consumes as its main input exactly the
output label of the stage before it, the first consuming cur. -/
def isChain : String → List Stage → Prop
  | _, [] => True
  | cur, s :: rest => s.inLabel = cur ∧ isChain s.outLabel rest

/-- Output indices are strictly increasing and all exceed the bound. -/
def indicesIncreasing : Nat → List Stage → Prop
  | _, [] => True
  | n, s :: rest => n < s.outIndex ∧ indicesIncreasing s.outIndex rest

/-- Detector of un-neutralized occurrences of a syntactically significant
character in filter-expression text: a backslash escapes (neutralizes)
exactly the character right after it; rawOccurs c l is true when l holds
an occurrence of c that no backslash escapes. -/
def rawOccurs (c : Char) : List Char → Bool
  | [] => false
  | [d] => d == c
  | d :: e :: rest =>
    if d = '\\' then rawOccurs c rest
    else (d == c) || rawOccurs c (e :: rest)

/-- Model of splitting a path on the slash separator. -/
def splitSlashAux : List Char → List Char → List String
  | [], acc => [String.mk acc.reverse]
  | c :: rest, acc =>
    if c = '/' then String.mk acc.reverse :: splitSlashAux rest []
    else splitSlashAux rest (c :: acc)

/-- Path components of a string. -/
def splitSlash (s : String) : List String := splitSlashAux s.data []

/-- The slash separator. -/
def slashStr : String := "/"

/-- Model of POSIX relative-path resolution over the component list, with
a stack: empty and "." components vanish, ".." pops the previous
component (or vanishes at the top, as resolution against a root-anchored
working directory would). -/
def normSegsAux : List String → List String → List String
  | stack, [] => stack.reverse
  | stack, seg :: rest =>
    if seg = "" then normSegsAux stack rest
    else if seg = "." then normSegsAux stack rest
    else if seg = ".." then
      match stack with
      | [] => normSegsAux [] rest
      | _ :: stack' => normSegsAux stack' rest
    else normSegsAux (seg :: stack) rest

/-- Normalized (resolved) form of a relative path. -/
def normalizePath (s : String) : String :=
  String.intercalate slashStr (normSegsAux [] (splitSlash s))

/-- True when the resolved path lies inside the storage directory. -/
def insideStorage (p : String) : Bool :=
  List.isPrefixOf (STORAGE_DIR ++ slashStr).data (normalizePath p).data

/-- Command shape asserted by the specification (section 6), written from
the spec for comparison with the source's builder: identical to
buildCommand except that the filter stages are joined with the separator
"; " that the specification prescribes. -/
def specCommandShape (cwd : String) (fs : List String) (video_path job_id : String)
    (overlays : List OverlayJson) : List String :=
  let st := compileState cwd fs video_path overlays
  st.input_files ++
    ["-filter_complex", String.intercalate semiSpace st.filter_complex_list,
     "-map", st.current_stream,
     "-map", "0:a?",
     "-c:v", "libx264",
     "-crf", "23",
     "-preset", "veryfast",
     "-c:a", "aac",
     "-b:a", "192k",
     output_path job_id]

/-- Structural property of the compiled graph for an overlay list whose
entries are all text or image overlays with the asset present: the
emitted stage strings are exactly the structured stages' texts, there are
exactly as many stages as overlays, the image stages carry one scale
sub-stage each whose auxiliary-input indices are 1, 2, ... in
registration order, and the final stream is the last stage's label. -/
def stageStructureProp (cwd : String) (fs : List String) (video_path : String)
    (ovs : List OverlayJson) : Prop :=
  (compileState cwd fs video_path ovs).filter_complex_list =
      (compileStages cwd fs "[0:v]" 0 1 ovs).map Stage.text ∧
  (compileStages cwd fs "[0:v]" 0 1 ovs).length = ovs.length ∧
  ((compileStages cwd fs "[0:v]" 0 1 ovs).filter (fun s => s.isImage)).length =
      (ovs.filter (fun ov => ov.otype == "image")).length ∧
  ((compileStages cwd fs "[0:v]" 0 1 ovs).filter (fun s => s.isImage)).map
        Stage.auxIndex =
      List.range' 1 ((ovs.filter (fun ov => ov.otype == "image")).length) ∧
  (∀ s ∈ compileStages cwd fs "[0:v]" 0 1 ovs, s.isImage = true →
      ∃ tail : String,
        s.text = "[" ++ toString s.auxIndex ++ ":v] scale=150:-1 " ++ tail) ∧
  (ovs ≠ [] →
    (compileState cwd fs video_path ovs).current_stream = mkLabel ovs.length ∧
    lastLabel "[0:v]" (compileStages cwd fs "[0:v]" 0 1 ovs) = mkLabel ovs.length)

theorem foldl_compileStep_eq (cwd : String) (fs : List String) (ovs : List OverlayJson)
    (st : CompState) :
    List.foldl (compileStep cwd fs) st ovs =
      { input_files := st.input_files ++
          auxInputs cwd (compileStages cwd fs st.current_stream st.filter_count
            st.asset_input_index ovs)
        filter_complex_list := st.filter_complex_list ++
          (compileStages cwd fs st.current_stream st.filter_count
            st.asset_input_index ovs).map Stage.text
        current_stream := lastLabel st.current_stream
          (compileStages cwd fs st.current_stream st.filter_count
            st.asset_input_index ovs)
        filter_count := st.filter_count + ovs.length
        asset_input_index := st.asset_input_index +
          ((compileStages cwd fs st.current_stream st.filter_count
            st.asset_input_index ovs).filter (fun s => s.isImage)).length } := by
  induction ovs generalizing st with
  | nil => simp [compileStages, auxInputs, lastLabel]
  | cons ov rest ih =>
    cases hb : ov.otype == "text" with
    | true =>
      simp only [List.foldl_cons, compileStep, compileStages, hb, if_true]
      rw [ih]
      simp [lastLabel, auxInputs, List.append_assoc]
      omega
    | false =>
      cases hm : ov.otype == "image" with
      | true =>
        cases hc : fs.contains (logoPath cwd) with
        | true =>
          simp only [List.foldl_cons, compileStep, compileStages, hb, hm, hc,
            if_true, if_false, Bool.false_eq_true]
          rw [ih]
          simp [lastLabel, auxInputs, List.append_assoc]
          omega
        | false =>
          simp only [List.foldl_cons, compileStep, compileStages, hb, hm, hc,
            if_true, if_false, Bool.false_eq_true]
          rw [ih]
          simp [lastLabel, auxInputs, List.append_assoc]
          omega
      | false =>
        simp only [List.foldl_cons, compileStep, compileStages, hb, hm,
          if_false, Bool.false_eq_true]
        rw [ih]
        simp [lastLabel, auxInputs, List.append_assoc]
        omega

theorem indicesIncreasing_mono {m n : Nat} (h : m ≤ n) :
    ∀ l : List Stage, indicesIncreasing n l → indicesIncreasing m l
  | [], _ => trivial
  | _ :: _, hl => ⟨Nat.lt_of_le_of_lt h hl.1, hl.2⟩

theorem compileStages_chain (cwd : String) (fs : List String) :
    ∀ (ovs : List OverlayJson) (cur : String) (fc aux : Nat),
      isChain cur (compileStages cwd fs cur fc aux ovs) := by
  intro ovs
  induction ovs with
  | nil => intro cur fc aux; simp [compileStages, isChain]
  | cons ov rest ih =>
    intro cur fc aux
    cases hb : ov.otype == "text" with
    | true =>
      simp only [compileStages, hb, if_true]
      exact ⟨rfl, ih (mkLabel (fc + 1)) (fc + 1) aux⟩
    | false =>
      cases hm : ov.otype == "image" with
      | true =>
        cases hc : fs.contains (logoPath cwd) with
        | true =>
          simp only [compileStages, hb, hm, hc, if_true, if_false, Bool.false_eq_true]
          exact ⟨rfl, ih (mkLabel (fc + 1)) (fc + 1) (aux + 1)⟩
        | false =>
          simp only [compileStages, hb, hm, hc, if_true, if_false, Bool.false_eq_true]
          exact ih cur (fc + 1) aux
      | false =>
        simp only [compileStages, hb, hm, if_false, Bool.false_eq_true]
        exact ih cur (fc + 1) aux

theorem compileStages_increasing (cwd : String) (fs : List String) :
    ∀ (ovs : List OverlayJson) (cur : String) (fc aux : Nat),
      indicesIncreasing fc (compileStages cwd fs cur fc aux ovs) := by
  intro ovs
  induction ovs with
  | nil => intro cur fc aux; simp [compileStages, indicesIncreasing]
  | cons ov rest ih =>
    intro cur fc aux
    cases hb : ov.otype == "text" with
    | true =>
      simp only [compileStages, hb, if_true]
      exact ⟨Nat.lt_succ_self fc, ih (mkLabel (fc + 1)) (fc + 1) aux⟩
    | false =>
      cases hm : ov.otype == "image" with
      | true =>
        cases hc : fs.contains (logoPath cwd) with
        | true =>
          simp only [compileStages, hb, hm, hc, if_true, if_false, Bool.false_eq_true]
          exact ⟨Nat.lt_succ_self fc, ih (mkLabel (fc + 1)) (fc + 1) (aux + 1)⟩
        | false =>
          simp only [compileStages, hb, hm, hc, if_true, if_false, Bool.false_eq_true]
          exact indicesIncreasing_mono (Nat.le_succ fc) _ (ih cur (fc + 1) aux)
      | false =>
        simp only [compileStages, hb, hm, if_false, Bool.false_eq_true]
        exact indicesIncreasing_mono (Nat.le_succ fc) _ (ih cur (fc + 1) aux)

theorem compileStages_outLabel (cwd : String) (fs : List String) :
    ∀ (ovs : List OverlayJson) (cur : String) (fc aux : Nat) (s : Stage),
      s ∈ compileStages cwd fs cur fc aux ovs → s.outLabel = mkLabel s.outIndex := by
  intro ovs
  induction ovs with
  | nil => intro cur fc aux s h; simp [compileStages] at h
  | cons ov rest ih =>
    intro cur fc aux s h
    cases hb : ov.otype == "text" with
    | true =>
      simp only [compileStages, hb, if_true, List.mem_cons] at h
      rcases h with h | h
      · subst h; rfl
      · exact ih (mkLabel (fc + 1)) (fc + 1) aux s h
    | false =>
      cases hm : ov.otype == "image" with
      | true =>
        cases hc : fs.contains (logoPath cwd) with
        | true =>
          simp only [compileStages, hb, hm, hc, if_true, if_false,
            Bool.false_eq_true, List.mem_cons] at h
          rcases h with h | h
          · subst h; rfl
          · exact ih (mkLabel (fc + 1)) (fc + 1) (aux + 1) s h
        | false =>
          simp only [compileStages, hb, hm, hc, if_true, if_false,
            Bool.false_eq_true] at h
          exact ih cur (fc + 1) aux s h
      | false =>
        simp only [compileStages, hb, hm, if_false, Bool.false_eq_true] at h
        exact ih cur (fc + 1) aux s h

theorem compileStages_auxIndices (cwd : String) (fs : List String) :
    ∀ (ovs : List OverlayJson) (cur : String) (fc aux : Nat),
      ((compileStages cwd fs cur fc aux ovs).filter (fun s => s.isImage)).map
          Stage.auxIndex =
        List.range' aux
          (((compileStages cwd fs cur fc aux ovs).filter (fun s => s.isImage)).length) := by
  intro ovs
  induction ovs with
  | nil => intro cur fc aux; simp [compileStages]
  | cons ov rest ih =>
    intro cur fc aux
    cases hb : ov.otype == "text" with
    | true =>
      simp only [compileStages, hb, if_true, List.filter_cons]
      simp only [Bool.false_eq_true, if_false]
      exact ih (mkLabel (fc + 1)) (fc + 1) aux
    | false =>
      cases hm : ov.otype == "image" with
      | true =>
        cases hc : fs.contains (logoPath cwd) with
        | true =>
          simp only [compileStages, hb, hm, hc, if_true, if_false,
            Bool.false_eq_true, List.filter_cons, if_true]
          simp only [List.map_cons, List.length_cons, List.range'_succ]
          exact congrArg (List.cons aux) (ih (mkLabel (fc + 1)) (fc + 1) (aux + 1))
        | false =>
          simp only [compileStages, hb, hm, hc, if_true, if_false, Bool.false_eq_true]
          exact ih cur (fc + 1) aux
      | false =>
        simp only [compileStages, hb, hm, if_false, Bool.false_eq_true]
        exact ih cur (fc + 1) aux

theorem compileStages_scaleText (cwd : String) (fs : List String) :
    ∀ (ovs : List OverlayJson) (cur : String) (fc aux : Nat) (s : Stage),
      s ∈ compileStages cwd fs cur fc aux ovs → s.isImage = true →
        ∃ tail : String,
          s.text = "[" ++ toString s.auxIndex ++ ":v] scale=150:-1 " ++ tail := by
  intro ovs
  induction ovs with
  | nil => intro cur fc aux s h; simp [compileStages] at h
  | cons ov rest ih =>
    intro cur fc aux s h himg
    cases hb : ov.otype == "text" with
    | true =>
      simp only [compileStages, hb, if_true, List.mem_cons] at h
      rcases h with h | h
      · subst h; simp at himg
      · exact ih (mkLabel (fc + 1)) (fc + 1) aux s h himg
    | false =>
      cases hm : ov.otype == "image" with
      | true =>
        cases hc : fs.contains (logoPath cwd) with
        | true =>
          simp only [compileStages, hb, hm, hc, if_true, if_false,
            Bool.false_eq_true, List.mem_cons] at h
          rcases h with h | h
          · subst h
            refine ⟨scaleLabel (fc + 1) ++ "; " ++ cur ++ scaleLabel (fc + 1) ++
              overlayFilter ov ++ mkLabel (fc + 1), ?_⟩
            simp only [imageStage, scaleFilter]
            simp [String.append_assoc]
          · exact ih (mkLabel (fc + 1)) (fc + 1) (aux + 1) s h himg
        | false =>
          simp only [compileStages, hb, hm, hc, if_true, if_false,
            Bool.false_eq_true] at h
          exact ih cur (fc + 1) aux s h himg
      | false =>
        simp only [compileStages, hb, hm, if_false, Bool.false_eq_true] at h
        exact ih cur (fc + 1) aux s h himg

theorem compileStages_length (cwd : String) (fs : List String)
    (hc : fs.contains (logoPath cwd) = true) :
    ∀ (ovs : List OverlayJson) (cur : String) (fc aux : Nat),
      (∀ ov ∈ ovs, ov.otype = "text" ∨ ov.otype = "image") →
      (compileStages cwd fs cur fc aux ovs).length = ovs.length := by
  intro ovs
  induction ovs with
  | nil => intro cur fc aux _; simp [compileStages]
  | cons ov rest ih =>
    intro cur fc aux hall
    rcases hall ov (List.mem_cons_self ov rest) with ht | him
    · have hb : (ov.otype == "text") = true := by simp [ht]
      simp only [compileStages, hb, if_true, List.length_cons]
      rw [ih (mkLabel (fc + 1)) (fc + 1) aux
        (fun o ho => hall o (List.mem_cons_of_mem ov ho))]
    · have hb : (ov.otype == "text") = false := by simp [him]
      have hm : (ov.otype == "image") = true := by simp [him]
      simp only [compileStages, hb, hm, hc, if_true, if_false,
        Bool.false_eq_true, List.length_cons]
      rw [ih (mkLabel (fc + 1)) (fc + 1) (aux + 1)
        (fun o ho => hall o (List.mem_cons_of_mem ov ho))]

theorem compileStages_imageCount (cwd : String) (fs : List String)
    (hc : fs.contains (logoPath cwd) = true) :
    ∀ (ovs : List OverlayJson) (cur : String) (fc aux : Nat),
      ((compileStages cwd fs cur fc aux ovs).filter (fun s => s.isImage)).length =
        (ovs.filter (fun ov => ov.otype == "image")).length := by
  intro ovs
  induction ovs with
  | nil => intro cur fc aux; simp [compileStages]
  | cons ov rest ih =>
    intro cur fc aux
    cases hb : ov.otype == "text" with
    | true =>
      have ht : ov.otype = "text" := eq_of_beq hb
      have hm : (ov.otype == "image") = false := by rw [ht]; decide
      simp only [compileStages, hb, if_true, List.filter_cons, hm]
      simp only [Bool.false_eq_true, if_false]
      exact ih (mkLabel (fc + 1)) (fc + 1) aux
    | false =>
      cases hm : ov.otype == "image" with
      | true =>
        simp only [compileStages, hb, hm, hc, if_true, if_false,
          Bool.false_eq_true, List.filter_cons]
        simp only [if_true, List.length_cons]
        rw [ih (mkLabel (fc + 1)) (fc + 1) (aux + 1)]
      | false =>
        simp only [compileStages, hb, hm, if_false, Bool.false_eq_true,
          List.filter_cons]
        exact ih cur (fc + 1) aux

theorem compileStages_lastLabel (cwd : String) (fs : List String)
    (hc : fs.contains (logoPath cwd) = true) :
    ∀ (ovs : List OverlayJson) (cur : String) (fc aux : Nat),
      (∀ ov ∈ ovs, ov.otype = "text" ∨ ov.otype = "image") →
      ovs ≠ [] →
      lastLabel cur (compileStages cwd fs cur fc aux ovs) = mkLabel (fc + ovs.length) := by
  intro ovs
  induction ovs with
  | nil => intro cur fc aux _ hne; exact absurd rfl hne
  | cons ov rest ih =>
    intro cur fc aux hall _
    have hrest : ∀ o ∈ rest, o.otype = "text" ∨ o.otype = "image" :=
      fun o ho => hall o (List.mem_cons_of_mem ov ho)
    have hstep : ∀ aux' : Nat,
        lastLabel (mkLabel (fc + 1))
            (compileStages cwd fs (mkLabel (fc + 1)) (fc + 1) aux' rest) =
          mkLabel (fc + (rest.length + 1)) := by
      intro aux'
      cases hr : rest with
      | nil => simp [compileStages, lastLabel]
      | cons r rs =>
        rw [← hr]
        have hne : rest ≠ [] := by simp [hr]
        rw [ih (mkLabel (fc + 1)) (fc + 1) aux' hrest hne]
        exact congrArg mkLabel (by omega)
    rcases hall ov (List.mem_cons_self ov rest) with ht | him
    · have hb : (ov.otype == "text") = true := by simp [ht]
      simp only [compileStages, hb, if_true, lastLabel, List.length_cons]
      exact hstep aux
    · have hb : (ov.otype == "text") = false := by simp [him]
      have hm : (ov.otype == "image") = true := by simp [him]
      simp only [compileStages, hb, hm, hc, if_true, if_false,
        Bool.false_eq_true, lastLabel, List.length_cons]
      exact hstep (aux + 1)

theorem mkLabel_ne_primary (n : Nat) : mkLabel n ≠ "[0:v]" := by
  intro h
  have h2 := congrArg String.data h
  rw [mkLabel, String.data_append, String.data_append] at h2
  have hv : ("[v" : String).data = ['[', 'v'] := rfl
  have h0 : ("[0:v]" : String).data = ['[', '0', ':', 'v', ']'] := rfl
  rw [hv, h0] at h2
  simp at h2

theorem removeFile_contains_eq_false (fs : List String) (p : String) :
    (removeFile fs p).contains p = false := by
  induction fs with
  | nil => rfl
  | cons q rest ih =>
    by_cases h : q = p
    · simp only [removeFile]
      rw [if_pos h]
      exact ih
    · simp only [removeFile]
      rw [if_neg h]
      simp only [List.contains_cons, ih, Bool.or_false]
      exact beq_eq_false_iff_ne.mpr (fun e => h e.symm)

theorem escapeQuote_eq_nil_iff (l : List Char) : escapeQuote l = [] ↔ l = [] := by
  cases l with
  | nil => simp [escapeQuote]
  | cons c rest =>
    constructor
    · intro h
      by_cases hc : c = '\''
      · simp [escapeQuote, hc] at h
      · simp [escapeQuote, hc] at h
    · intro h; exact absurd h (List.cons_ne_nil c rest)

theorem rawOccurs_quote_escapeQuote (l : List Char)
    (hnb : l.contains '\\' = false) :
    rawOccurs '\'' (escapeQuote l) = false := by
  induction l with
  | nil => rfl
  | cons c rest ih =>
    have hc' : (('\\' : Char) == c) = false ∧ rest.contains '\\' = false := by
      rw [List.contains_cons] at hnb
      exact ⟨by simp_all, by simp_all⟩
    have hcb : c ≠ '\\' := by
      intro h; rw [h] at hc'; simp at hc'
    by_cases hq : c = '\''
    · rw [hq]
      show rawOccurs '\'' ('\\' :: '\'' :: escapeQuote rest) = false
      rw [show rawOccurs '\'' ('\\' :: '\'' :: escapeQuote rest) =
        rawOccurs '\'' (escapeQuote rest) from by simp [rawOccurs]]
      exact ih hc'.2
    · rw [show escapeQuote (c :: rest) = c :: escapeQuote rest from by
        simp [escapeQuote, hq]]
      cases hE : escapeQuote rest with
      | nil => simp [rawOccurs, hq]
      | cons e tl =>
        rw [show rawOccurs '\'' (c :: e :: tl) =
          ((c == '\'') || rawOccurs '\'' (e :: tl)) from by simp [rawOccurs, hcb]]
        rw [← hE, ih hc'.2]
        simp [hq]

theorem rawOccurs_escapeQuote_of_ne (l : List Char) (c : Char)
    (hnb : l.contains '\\' = false) (hq : c ≠ '\'') :
    rawOccurs c (escapeQuote l) = l.contains c := by
  induction l with
  | nil => rfl
  | cons c0 rest ih =>
    have hsplit : (('\\' : Char) == c0) = false ∧ rest.contains '\\' = false := by
      rw [List.contains_cons] at hnb
      exact ⟨by simp_all, by simp_all⟩
    have hc0b : c0 ≠ '\\' := by
      intro h; rw [h] at hsplit; simp at hsplit
    rw [List.contains_cons]
    by_cases h0 : c0 = '\''
    · rw [show escapeQuote (c0 :: rest) = '\\' :: '\'' :: escapeQuote rest from by
        simp [escapeQuote, h0]]
      rw [show rawOccurs c ('\\' :: '\'' :: escapeQuote rest) =
        rawOccurs c (escapeQuote rest) from by simp [rawOccurs]]
      rw [ih hsplit.2, h0]
      have : (c == '\'') = false := beq_eq_false_iff_ne.mpr hq
      simp [this]
    · rw [show escapeQuote (c0 :: rest) = c0 :: escapeQuote rest from by
        simp [escapeQuote, h0]]
      cases hE : escapeQuote rest with
      | nil =>
        have hrest : rest = [] := (escapeQuote_eq_nil_iff rest).mp hE
        subst hrest
        simp [rawOccurs, List.contains, BEq.comm]
      | cons e tl =>
        rw [show rawOccurs c (c0 :: e :: tl) =
          ((c0 == c) || rawOccurs c (e :: tl)) from by simp [rawOccurs, hc0b]]
        rw [← hE, ih hsplit.2]
        rw [show (c0 == c) = (c == c0) from BEq.comm]

/-- Claim C9: for every execution of a job — success, encoder failure, or
any internal error — the finally block deletes the temporary input file,
so after any outcome the file no longer exists on storage. -/
theorem cleanup_always_removes_input (cwd job_id video_path : String)
    (ovs : List OverlayJson) (outcome : ProcOutcome) (job : JobRecord)
    (fs : List String) :
    ((render_video_task cwd job_id video_path ovs outcome job fs).2.1).contains
      video_path = false := by
  cases outcome with
  | success creates => exact removeFile_contains_eq_false _ _
  | failure => exact removeFile_contains_eq_false _ _
  | internalError => exact removeFile_contains_eq_false _ _

/-- Claim C2, amended: the engine sets COMPLETE (populating result_path
with the output path) immediately after the external process exits with
success, without checking that the output file exists on storage; on a
non-zero exit or an internal error the status becomes FAILED and
result_path is untouched. -/
theorem engine_status_transitions (cwd job_id video_path : String)
    (ovs : List OverlayJson) (c : Bool) (job : JobRecord) (fs : List String) :
    (render_video_task cwd job_id video_path ovs (ProcOutcome.success c) job
        fs).1.status = "COMPLETE" ∧
    (render_video_task cwd job_id video_path ovs (ProcOutcome.success c) job
        fs).1.result_path = some (output_path job_id) ∧
    (render_video_task cwd job_id video_path ovs ProcOutcome.failure job
        fs).1.status = "FAILED" ∧
    (render_video_task cwd job_id video_path ovs ProcOutcome.failure job
        fs).1.result_path = job.result_path ∧
    (render_video_task cwd job_id video_path ovs ProcOutcome.internalError job
        fs).1.status = "FAILED" :=
  ⟨rfl, rfl, rfl, rfl, rfl⟩

/-- Claim C2, counterexample: a run in which the external process exits
with success but produces no output file still ends with status COMPLETE,
while the output path does not exist on storage — the engine performs no
existence check before the COMPLETE transition. -/
theorem complete_without_existing_output :
    ((render_video_task "/app" "j1" "rendered_videos/j1_clip.mp4" []
        (ProcOutcome.success false)
        { status := "PROCESSING", video_path := "rendered_videos/j1_clip.mp4",
          metadata := "", result_path := none }
        ["rendered_videos/j1_clip.mp4"]).1.status = "COMPLETE") ∧
    (((render_video_task "/app" "j1" "rendered_videos/j1_clip.mp4" []
        (ProcOutcome.success false)
        { status := "PROCESSING", video_path := "rendered_videos/j1_clip.mp4",
          metadata := "", result_path := none }
        ["rendered_videos/j1_clip.mp4"]).2.1).contains (output_path "j1") = false) :=
  ⟨rfl, by decide⟩

/-- Claim C6: an empty overlay list leaves the loop state untouched
(empty stage list, final stream equal to the primary stream), and the
command builder still emits "-filter_complex" with an empty string
argument and maps the bracketed label of the primary stream, as evaluated
here on a concrete job. -/
theorem emptyOverlays_passthrough_command (cwd : String) (fs : List String)
    (video_path : String) :
    compileState cwd fs video_path [] = initState video_path ∧
    buildCommand "/app" [] "in.mp4" "j1" [] =
      ["ffmpeg", "-y", "-i", "in.mp4", "-filter_complex", "", "-map", "[0:v]",
       "-map", "0:a?", "-c:v", "libx264", "-crf", "23", "-preset", "veryfast",
       "-c:a", "aac", "-b:a", "192k", "rendered_videos/j1_final.mp4"] :=
  ⟨rfl, by decide⟩

/-- Claim C3, amended: the generated command line is exactly
encoder -y -i input, the auxiliary image inputs in registration order,
then -filter_complex with the stages joined by ", " (a comma, not the
"; " separator), -map of the last stage's label, -map 0:a?, the fixed
codec arguments, and the deterministic output path
storage_dir/job_id_final.mp4. -/
theorem buildCommand_shape (cwd : String) (fs : List String)
    (video_path job_id : String) (ovs : List OverlayJson) :
    buildCommand cwd fs video_path job_id ovs =
      ["ffmpeg", "-y", "-i", video_path] ++
        auxInputs cwd (compileStages cwd fs "[0:v]" 0 1 ovs) ++
        ["-filter_complex",
         String.intercalate commaSpace
           ((compileStages cwd fs "[0:v]" 0 1 ovs).map Stage.text),
         "-map", lastLabel "[0:v]" (compileStages cwd fs "[0:v]" 0 1 ovs),
         "-map", "0:a?", "-c:v", "libx264", "-crf", "23", "-preset", "veryfast",
         "-c:a", "aac", "-b:a", "192k",
         STORAGE_DIR ++ "/" ++ job_id ++ "_final.mp4"] := by
  simp [buildCommand, compileState, foldl_compileStep_eq, initState, output_path,
    pathJoin, List.append_assoc, String.append_assoc]

/-- Claim C3, counterexample: on a two-stage job the command built by the
source differs from the shape the specification asserts, because the
source joins the filter stages with ", " while the specification
prescribes "; ". -/
theorem command_separator_counterexample :
    buildCommand "/app" [] "in.mp4" "j1"
        [{ otype := "text", start_time := 0, end_time := 2, content := "A" },
         { otype := "text", start_time := 1, end_time := 3, content := "B" }] ≠
      specCommandShape "/app" [] "in.mp4" "j1"
        [{ otype := "text", start_time := 0, end_time := 2, content := "A" },
         { otype := "text", start_time := 1, end_time := 3, content := "B" }] := by
  decide

/-- Claim C1, counterexample: submitting metadata whose overlay list
contains the unknown kind "sticker" does not fail the submission: the
upload returns the PENDING response and a job record is created in the
store — no validation error occurs — and the corresponding parsed
overlay of unknown kind simply contributes no stage to the compiled
graph. -/
theorem upload_sticker_creates_job :
    (upload_video "j1" "clip.mp4"
        "\x7b\"overlays\": [\x7b\"type\": \"sticker\", \"start_time\": 0, \"end_time\": 2\x7d]\x7d"
        [] [] true).store.lookup "j1" =
      some { status := "PENDING", video_path := "rendered_videos/j1_clip.mp4",
             metadata := "\x7b\"overlays\": [\x7b\"type\": \"sticker\", \"start_time\": 0, \"end_time\": 2\x7d]\x7d",
             result_path := none } ∧
    (upload_video "j1" "clip.mp4"
        "\x7b\"overlays\": [\x7b\"type\": \"sticker\", \"start_time\": 0, \"end_time\": 2\x7d]\x7d"
        [] [] true).response = Except.ok ("j1", "PENDING") ∧
    compileStages "/app" ["/app/assets/logo.png"] "[0:v]" 0 1
        [{ otype := "sticker", start_time := 0, end_time := 2 }] = [] :=
  ⟨by decide, rfl, by decide⟩

/-- Claim C1, amended: the submission endpoint performs no validation of
the overlay metadata at all — for every metadata string (valid or not) a
PENDING job record is created and the PENDING response returned once the
file is saved — and an overlay of unknown kind is silently skipped by the
rendering loop (only the stage counter advances). -/
theorem upload_never_validates (job_id filename metadata : String)
    (store : List (String × JobRecord)) (fs : List String) :
    (upload_video job_id filename metadata store fs true).store.lookup job_id =
      some { status := "PENDING", video_path := temp_video_path job_id filename,
             metadata := metadata, result_path := none } ∧
    (upload_video job_id filename metadata store fs true).response =
      Except.ok (job_id, "PENDING") ∧
    (∀ (cwd : String) (fs2 : List String) (st : CompState) (ov : OverlayJson),
      ov.otype ≠ "text" → ov.otype ≠ "image" →
      compileStep cwd fs2 st ov = { st with filter_count := st.filter_count + 1 }) := by
  refine ⟨?_, rfl, ?_⟩
  · simp [upload_video, List.lookup]
  · intro cwd fs2 st ov h1 h2
    have hb : (ov.otype == "text") = false := beq_eq_false_iff_ne.mpr h1
    have hm : (ov.otype == "image") = false := beq_eq_false_iff_ne.mpr h2
    simp [compileStep, hb, hm]

theorem upload_never_validates_witness :
    (({ otype := "sticker", start_time := 0, end_time := 2 } : OverlayJson).otype
        ≠ "text") ∧
    (({ otype := "sticker", start_time := 0, end_time := 2 } : OverlayJson).otype
        ≠ "image") ∧
    (upload_video "j1" "clip.mp4" "m" [] [] true).store.lookup "j1" =
      some { status := "PENDING", video_path := temp_video_path "j1" "clip.mp4",
             metadata := "m", result_path := none } ∧
    compileStep "/app" [] (initState "in.mp4")
        { otype := "sticker", start_time := 0, end_time := 2 } =
      { initState "in.mp4" with
          filter_count := (initState "in.mp4").filter_count + 1 } :=
  ⟨by decide, by decide,
   (upload_never_validates "j1" "clip.mp4" "m" [] []).1,
   (upload_never_validates "j1" "clip.mp4" "m" [] []).2.2 "/app" []
     (initState "in.mp4") { otype := "sticker", start_time := 0, end_time := 2 }
     (by decide) (by decide)⟩

/-- Claim C4, counterexample: the escaping applied to text content does
not neutralize every syntactically significant character of the filter
expression language — a colon, a backslash or a percent sign in the
content survives unescaped, and even a quote is left effectively
unescaped when the content also holds a backslash. -/
theorem escaping_incomplete_counterexample :
    rawOccurs ':' (escapeText ":").data = true ∧
    rawOccurs '\\' (escapeText "\\").data = true ∧
    rawOccurs '%' (escapeText "%").data = true ∧
    rawOccurs '\'' (escapeText "\\'").data = true := by
  decide

/-- Claim C4, amended: the escaping replaces single quotes only. For
backslash-free content the single quote is neutralized, but a colon or a
percent sign in the content survives un-neutralized into the filter
expression exactly when the content holds one. -/
theorem escaping_only_neutralizes_quotes (s : String)
    (hnb : s.data.contains '\\' = false) :
    rawOccurs '\'' (escapeText s).data = false ∧
    rawOccurs ':' (escapeText s).data = s.data.contains ':' ∧
    rawOccurs '%' (escapeText s).data = s.data.contains '%' :=
  ⟨rawOccurs_quote_escapeQuote s.data hnb,
   rawOccurs_escapeQuote_of_ne s.data ':' hnb (by decide),
   rawOccurs_escapeQuote_of_ne s.data '%' hnb (by decide)⟩

theorem escaping_only_neutralizes_quotes_witness :
    ("it's: 100%").data.contains '\\' = false ∧
    (rawOccurs '\'' (escapeText "it's: 100%").data = false ∧
     rawOccurs ':' (escapeText "it's: 100%").data =
       ("it's: 100%").data.contains ':' ∧
     rawOccurs '%' (escapeText "it's: 100%").data =
       ("it's: 100%").data.contains '%') :=
  ⟨by decide, escaping_only_neutralizes_quotes "it's: 100%" (by decide)⟩

/-- Claim C7: an image overlay whose asset file is absent contributes no
stage and no auxiliary input — the loop step only advances the stage
counter, leaving the filter list, the input list, the cursor and the
auxiliary-input index unchanged — and a job whose overlay list contains
such an overlay still reaches COMPLETE when the external process
succeeds. -/
theorem missing_asset_skips_overlay (cwd : String) (fs : List String)
    (st : CompState) (ov : OverlayJson) (job_id video_path : String)
    (pre post : List OverlayJson) (c : Bool) (job : JobRecord)
    (him : ov.otype = "image") (habs : fs.contains (logoPath cwd) = false) :
    compileStep cwd fs st ov = { st with filter_count := st.filter_count + 1 } ∧
    (render_video_task cwd job_id video_path (pre ++ ov :: post)
        (ProcOutcome.success c) job fs).1.status = "COMPLETE" := by
  constructor
  · have hb : (ov.otype == "text") = false := by rw [him]; decide
    have hm : (ov.otype == "image") = true := by rw [him]; decide
    have habs' : ¬ logoPath cwd ∈ fs := by simpa using habs
    simp [compileStep, hb, hm, habs']
  · rfl

theorem missing_asset_skips_overlay_witness :
    (({ otype := "image", start_time := 2, end_time := 4 } : OverlayJson).otype
        = "image") ∧
    (([] : List String).contains (logoPath "/app") = false) ∧
    (compileStep "/app" [] (initState "in.mp4")
        { otype := "image", start_time := 2, end_time := 4 } =
      { initState "in.mp4" with
          filter_count := (initState "in.mp4").filter_count + 1 } ∧
     (render_video_task "/app" "j1" "in.mp4"
        ([] ++ ({ otype := "image", start_time := 2, end_time := 4 } : OverlayJson) :: [])
        (ProcOutcome.success true)
        { status := "PROCESSING", video_path := "in.mp4", metadata := "",
          result_path := none } []).1.status = "COMPLETE") :=
  ⟨by decide, by decide,
   missing_asset_skips_overlay "/app" [] (initState "in.mp4")
     { otype := "image", start_time := 2, end_time := 4 } "j1" "in.mp4" [] [] true
     { status := "PROCESSING", video_path := "in.mp4", metadata := "",
       result_path := none } (by decide) (by decide)⟩

/-- Claim C5: for an overlay list consisting only of text and image
overlays with the image asset present, the compiled graph holds exactly N
stage strings (one per overlay), one scale sub-stage per image overlay,
the k-th registered image overlay's scale stage reads auxiliary input k
(indices 1, 2, ... in registration order, 0 being the primary video), and
the stream handed to the encoder's map is the last stage's output label. -/
theorem all_assets_stage_structure (cwd : String) (fs : List String)
    (video_path : String) (ovs : List OverlayJson)
    (h1 : ∀ ov ∈ ovs, ov.otype = "text" ∨ ov.otype = "image")
    (h2 : fs.contains (logoPath cwd) = true) :
    stageStructureProp cwd fs video_path ovs := by
  have hfl : (compileState cwd fs video_path ovs).filter_complex_list =
      (compileStages cwd fs "[0:v]" 0 1 ovs).map Stage.text := by
    unfold compileState
    rw [foldl_compileStep_eq]
    rfl
  refine ⟨hfl, ?_, ?_, ?_, ?_, ?_⟩
  · exact compileStages_length cwd fs h2 ovs "[0:v]" 0 1 h1
  · exact compileStages_imageCount cwd fs h2 ovs "[0:v]" 0 1
  · rw [compileStages_auxIndices cwd fs ovs "[0:v]" 0 1,
      compileStages_imageCount cwd fs h2 ovs "[0:v]" 0 1]
  · intro s hs hsi
    exact compileStages_scaleText cwd fs ovs "[0:v]" 0 1 s hs hsi
  · intro hne
    have hl := compileStages_lastLabel cwd fs h2 ovs "[0:v]" 0 1 h1 hne
    rw [Nat.zero_add] at hl
    refine ⟨?_, hl⟩
    unfold compileState
    rw [foldl_compileStep_eq]
    exact hl

theorem all_assets_stage_structure_witness :
    (∀ ov ∈ ([{ otype := "text", start_time := 0, end_time := 2, content := "Hi" },
              { otype := "image", start_time := 2, end_time := 4 }] :
        List OverlayJson), ov.otype = "text" ∨ ov.otype = "image") ∧
    (["/app/assets/logo.png"] : List String).contains (logoPath "/app") = true ∧
    stageStructureProp "/app" ["/app/assets/logo.png"] "in.mp4"
      [{ otype := "text", start_time := 0, end_time := 2, content := "Hi" },
       { otype := "image", start_time := 2, end_time := 4 }] :=
  ⟨by decide, by decide,
   all_assets_stage_structure "/app" ["/app/assets/logo.png"] "in.mp4"
     [{ otype := "text", start_time := 0, end_time := 2, content := "Hi" },
      { otype := "image", start_time := 2, end_time := 4 }]
     (by decide) (by decide)⟩

/-- Claim C8: the emitted stages form a strict chain in overlay order:
the stage strings of the loop are exactly the structured stages' texts,
each stage consumes as its main input the previous stage's output label
(the primary stream for the first), output labels carry strictly
increasing fresh counter values and never collide with the primary
label, and the final cursor is the last stage's output label. -/
theorem filter_graph_strict_chain (cwd : String) (fs : List String)
    (video_path : String) (ovs : List OverlayJson) :
    (compileState cwd fs video_path ovs).filter_complex_list =
      (compileStages cwd fs "[0:v]" 0 1 ovs).map Stage.text ∧
    isChain "[0:v]" (compileStages cwd fs "[0:v]" 0 1 ovs) ∧
    indicesIncreasing 0 (compileStages cwd fs "[0:v]" 0 1 ovs) ∧
    (∀ s ∈ compileStages cwd fs "[0:v]" 0 1 ovs,
      s.outLabel = mkLabel s.outIndex ∧ s.outLabel ≠ "[0:v]") ∧
    (compileState cwd fs video_path ovs).current_stream =
      lastLabel "[0:v]" (compileStages cwd fs "[0:v]" 0 1 ovs) := by
  refine ⟨?_, compileStages_chain cwd fs ovs "[0:v]" 0 1,
    compileStages_increasing cwd fs ovs "[0:v]" 0 1, ?_, ?_⟩
  · unfold compileState
    rw [foldl_compileStep_eq]
    rfl
  · intro s hs
    have ho := compileStages_outLabel cwd fs ovs "[0:v]" 0 1 s hs
    exact ⟨ho, ho ▸ mkLabel_ne_primary s.outIndex⟩
  · unfold compileState
    rw [foldl_compileStep_eq]
    rfl

/-- Claim C10: the temporary upload path is the raw join of the storage
directory with job_id_filename, the client-supplied filename used
unsanitized; a filename containing path separators and dot-dot segments
resolves outside the storage directory (while an ordinary filename stays
inside), so the saved input file is not guaranteed to reside in it. -/
theorem temp_path_unsanitized (job_id filename : String) :
    temp_video_path job_id filename =
      STORAGE_DIR ++ "/" ++ job_id ++ "_" ++ filename ∧
    normalizePath (temp_video_path "j1" "a/../../etc/passwd") = "etc/passwd" ∧
    insideStorage (temp_video_path "j1" "a/../../etc/passwd") = false ∧
    insideStorage (temp_video_path "j1" "clip.mp4") = true := by
  refine ⟨?_, by decide, by decide, by decide⟩
  unfold temp_video_path pathJoin STORAGE_DIR
  simp [String.append_assoc]
